import Mathlib

/-!
Verification development for the fin_analysis repository.

The file embeds, in Lean, the parts of the source that the claims
touch: the REBEL token-stream triplet decoder and the causal keyword
filter (`src/visualizer.py`), the extraction pipeline's error handling
(`extract_causal_relationships`), the Neo4j-backed entity/edge upsert
layer issued by `Visualizer.process`, and the graph building and
Louvain community partitioning of `src/clustering.py`.

Python string primitives (`strip`, `replace`, `split`, `lower`, the
`in` substring test) are modelled by structurally recursive functions
over `List Char` so that every definition evaluates inside the kernel.
-/

namespace FA

/- ## Python string primitives -/

/-- `pfx a b` is true when the character list `a` is an initial
segment of `b` (executable model of "the pattern occurs here"). -/
def pfx : List Char → List Char → Bool
  | [], _ => true
  | _ :: _, [] => false
  | a :: as, b :: bs => a == b && pfx as bs

/-- Worker for Python's `str.replace`: scans the input left to right;
`skip` counts input characters still to swallow after a match was
replaced. -/
def replaceGo (pat repl : List Char) : List Char → Nat → List Char
  | [], _ => []
  | _ :: rest, skip + 1 => replaceGo pat repl rest skip
  | c :: rest, 0 =>
    if pat.isEmpty then c :: replaceGo pat repl rest 0
    else if pfx pat (c :: rest) then repl ++ replaceGo pat repl rest (pat.length - 1)
    else c :: replaceGo pat repl rest 0

/-- Python's `str.replace(pat, repl)`: replace every leftmost,
non-overlapping occurrence of `pat` by `repl`. -/
def pyReplace (s pat repl : String) : String :=
  ⟨replaceGo pat.data repl.data s.data 0⟩

/-- Worker for Python's `str.split()`: split on whitespace runs,
discarding empty pieces; `acc` is the current token, reversed. -/
def splitWsGo : List Char → List Char → List (List Char)
  | [], acc => if acc.isEmpty then [] else [acc.reverse]
  | c :: rest, acc =>
    if c.isWhitespace then
      if acc.isEmpty then splitWsGo rest [] else acc.reverse :: splitWsGo rest []
    else splitWsGo rest (c :: acc)

/-- Python's `str.split()` with no argument. -/
def pySplit (s : String) : List String :=
  (splitWsGo s.data []).map String.mk

/-- Drop leading whitespace characters. -/
def dropLeadingWs : List Char → List Char
  | [] => []
  | c :: rest => if c.isWhitespace then dropLeadingWs rest else c :: rest

/-- Python's `str.strip()` with no argument: remove leading and
trailing whitespace. -/
def pyStrip (s : String) : String :=
  ⟨(dropLeadingWs (dropLeadingWs s.data.reverse).reverse)⟩

/-- Python's `str.lower()` (ASCII case folding, as exercised by the
source's relation labels). -/
def pyLower (s : String) : String :=
  ⟨s.data.map Char.toLower⟩

/-- Python's substring test `needle in hay`. -/
def subIn (needle : List Char) : List Char → Bool
  | [] => pfx needle []
  | c :: rest => pfx needle (c :: rest) || subIn needle rest

/- ## Triplet decoder (`extract_triplets`, src/visualizer.py 126-157) -/

/-- A decoded (head, type, tail) triple, the dictionaries produced by
`extract_triplets` in `src/visualizer.py`. -/
structure Triplet where
  head : String
  type : String
  tail : String
deriving DecidableEq, Repr

/-- State of the token loop inside `extract_triplets`: the `current`
mode character (`'x'` before any marker, `'t'`/`'s'`/`'o'` afterwards),
the three accumulator strings and the list of already emitted triples. -/
structure DecState where
  current : Char
  relation : String
  subject : String
  object_ : String
  triplets : List Triplet
deriving DecidableEq, Repr

/-- The initial loop state of `extract_triplets` (all accumulators
empty, `current = 'x'`). -/
def initState : DecState :=
  { current := 'x', relation := "", subject := "", object_ := "", triplets := [] }

/-- One iteration of the token loop of `extract_triplets`
(`src/visualizer.py` lines 133-154), for a single token. -/
def extractStep (s : DecState) (token : String) : DecState :=
  if token == "<triplet>" then
    let s1 : DecState :=
      if s.relation != "" then
        { s with current := 't',
                 triplets := s.triplets ++
                   [⟨pyStrip s.subject, pyStrip s.relation, pyStrip s.object_⟩],
                 relation := "" }
      else { s with current := 't' }
    { s1 with subject := "" }
  else if token == "<subj>" then
    let s1 : DecState :=
      if s.relation != "" then
        { s with current := 's',
                 triplets := s.triplets ++
                   [⟨pyStrip s.subject, pyStrip s.relation, pyStrip s.object_⟩] }
      else { s with current := 's' }
    { s1 with object_ := "" }
  else if token == "<obj>" then
    { s with current := 'o', relation := "" }
  else
    if s.current == 't' then { s with subject := s.subject ++ " " ++ token }
    else if s.current == 's' then { s with object_ := s.object_ ++ " " ++ token }
    else if s.current == 'o' then { s with relation := s.relation ++ " " ++ token }
    else s

/-- The sentinel stripping of `extract_triplets`:
`.replace("<s>", "").replace("<pad>", "").replace("</s>", "")`. -/
def stripSentinels (s : String) : String :=
  pyReplace (pyReplace (pyReplace s "<s>" "") "<pad>" "") "</s>" ""

/-- `extract_triplets` (`src/visualizer.py` lines 126-157): strip the
input, remove the sentinel substrings, split on whitespace, run the
marker state machine over the tokens, and emit a final triple when all
three accumulators are non-empty. -/
def extract_triplets (text : String) : List Triplet :=
  let tokens := pySplit (stripSentinels (pyStrip text))
  let s := tokens.foldl extractStep initState
  if s.subject != "" && s.relation != "" && s.object_ != "" then
    s.triplets ++ [⟨pyStrip s.subject, pyStrip s.relation, pyStrip s.object_⟩]
  else
    s.triplets

/- ## Causal filter (src/visualizer.py 27-31 and 120) -/

/-- The causal keyword list from `Visualizer.__init__`
(`src/visualizer.py` lines 27-30). -/
def causal_keywords : List String :=
  ["encodes", "use", "uses", "based on", "connects with", "endemic to",
   "influenced by", "followed by", "follows", "has cause", "has effect",
   "inception"]

/-- The filter expression of `extract_causal_relationships`
(`src/visualizer.py` line 120):
`any(k in t['type'].lower() for k in self.causal_keywords)`. -/
def isCausal (keywords : List String) (t : Triplet) : Bool :=
  keywords.any fun k => subIn k.data (pyLower t.type).data

/- ## Extraction pipeline error handling (src/visualizer.py 83-124) -/

/-- The chunking worker: `cur` is the current chunk reversed, the
`Nat` argument the remaining capacity of the current chunk. -/
def chunksGo : List Char → List Char → Nat → List (List Char)
  | [], cur, _ => if cur.isEmpty then [] else [cur.reverse]
  | _ :: _, _, 0 => []
  | c :: rest, cur, cap + 1 =>
    if cap = 0 then (c :: cur).reverse :: chunksGo rest [] 1000
    else chunksGo rest (c :: cur) cap

/-- The chunking of `extract_causal_relationships` (line 91):
`[text[i:i+1000] for i in range(0, len(text), 1000)]`. -/
def chunks1000 (text : List Char) : List (List Char) :=
  chunksGo text [] 1000

/-- Run the fallible generator over every chunk in order, propagating
the first failure — the behavior of the `for chunk in chunks` loop
under Python exception semantics. -/
def mapE (gen : List Char → Except String (List String)) :
    List (List Char) → Except String (List (List String))
  | [] => Except.ok []
  | c :: cs =>
    match gen c with
    | Except.error e => Except.error e
    | Except.ok r =>
      match mapE gen cs with
      | Except.error e => Except.error e
      | Except.ok rs => Except.ok (r :: rs)

/-- `extract_causal_relationships` (`src/visualizer.py` lines 83-124):
chunk the text, run the external generator+decoder (modelled as one
fallible function returning the decoded candidate sequences) on each
chunk, decode triplets from every candidate, and filter by the causal
keywords; any exception makes the whole call return `[]`. -/
def extract_causal_relationships (gen : List Char → Except String (List String))
    (keywords : List String) (text : List Char) : List Triplet :=
  match mapE gen (chunks1000 text) with
  | Except.error _ => []
  | Except.ok preds =>
    ((preds.flatten.map extract_triplets).flatten).filter (isCausal keywords)

/- ## GraphStore upserts (Visualizer.process, src/visualizer.py 74-79) -/

/-- Modelled from the spec: the stored state behind the Neo4j MERGE
statements issued by `Visualizer.process` (`src/visualizer.py` lines
76-79). The database itself is outside `src/`; §4.4 of the spec gives
the contract — entities keyed by name, edges keyed by the full
(source, target, type) triple. -/
structure GraphStore where
  entities : List String
  edges : List (String × String × String)
deriving DecidableEq, Repr

/-- The empty store. -/
def emptyStore : GraphStore := ⟨[], []⟩

/-- Modelled from the spec: `MERGE (a:Entity {name: $name})` — create
the entity if absent, else no-op. -/
def merge_entity (g : GraphStore) (name : String) : GraphStore :=
  if name ∈ g.entities then g
  else { g with entities := g.entities ++ [name] }

/-- Modelled from the spec: `MERGE (a)-[:RELATION {type: $ty}]->(b)` —
create the edge if no edge with that exact (source, target, type)
exists, else no-op. -/
def merge_edge (g : GraphStore) (src tgt ty : String) : GraphStore :=
  if (src, tgt, ty) ∈ g.edges then g
  else { g with edges := g.edges ++ [(src, tgt, ty)] }

/-- One upsert of a triple, as issued by `Visualizer.process` for each
extracted relationship: merge both entities, then the typed edge. -/
def upsert (g : GraphStore) (t : Triplet) : GraphStore :=
  merge_edge (merge_entity (merge_entity g t.head) t.tail) t.head t.tail t.type

/-- `n` repeated upserts of the same triple. -/
def upsertN : Nat → GraphStore → Triplet → GraphStore
  | 0, g, _ => g
  | n + 1, g, t => upsertN n (upsert g t) t

/- ## Graph building (Clustering.create_graph, src/clustering.py 28-45) -/

/-- Attributes attached to a node by `G.add_node(node["id"],
labels=node["labels"], **node["properties"])`. -/
structure NAttrs where
  labels : List String
  props : List (String × String)
deriving DecidableEq, Repr

/-- A NetworkX undirected graph as built by `Clustering.create_graph`:
nodes in insertion order with their attributes, and undirected edges
`(u, v, type, name)` stored once per unordered endpoint pair. -/
structure NGraph where
  nodes : List (String × NAttrs)
  edges : List (String × String × String × String)
deriving DecidableEq, Repr

/-- `G.add_node(id, ...)`: a new node is appended; re-adding an
existing id only updates its attributes. -/
def addNode (g : NGraph) (nid : String) (a : NAttrs) : NGraph :=
  if g.nodes.any (fun p => p.1 == nid) then
    { g with nodes := g.nodes.map fun p => if p.1 == nid then (p.1, a) else p }
  else { g with nodes := g.nodes ++ [(nid, a)] }

/-- Node membership, Python's `x in G`. -/
def hasNode (g : NGraph) (x : String) : Bool :=
  g.nodes.any fun p => p.1 == x

/-- `G.add_edge(u, v, type=ty, name=nm)` on an undirected NetworkX
graph: if an edge with the same unordered endpoints exists its
attributes are updated, otherwise the edge is appended. -/
def addEdge (g : NGraph) (u v ty nm : String) : NGraph :=
  if g.edges.any (fun e => (e.1 == u && e.2.1 == v) || (e.1 == v && e.2.1 == u)) then
    { g with edges := g.edges.map fun e =>
        if (e.1 == u && e.2.1 == v) || (e.1 == v && e.2.1 == u) then
          (e.1, e.2.1, ty, nm)
        else e }
  else { g with edges := g.edges ++ [(u, v, ty, nm)] }

/-- The node-adding loop of `create_graph` (lines 36-37). -/
def buildNodes (ns : List (String × NAttrs)) : NGraph :=
  ns.foldl (fun g nd => addNode g nd.1 nd.2) ⟨[], []⟩

/-- One relationship record of the input JSON:
`{"start": ..., "end": ..., "type": ..., "properties": {...}}`. -/
structure RelJson where
  start : String
  end_ : String
  type : String
  properties : List (String × String)
deriving DecidableEq, Repr

/-- The graph JSON description: nodes (id with attributes) and
relationships. -/
structure GraphData where
  nodes : List (String × NAttrs)
  relationships : List RelJson
deriving DecidableEq, Repr

/-- Python dictionary subscription `d[key]`: the value, or a KeyError
carrying the key. -/
def dictGet (d : List (String × String)) (key : String) : Except String String :=
  match d.find? (fun p => p.1 == key) with
  | some p => Except.ok p.2
  | none => Except.error key

/-- The edge-adding loop of `create_graph` (lines 40-43): an edge is
added only when both endpoints are nodes; `rel['properties']['type']`
raises a KeyError when the key is missing. -/
def addRels : List RelJson → NGraph → Except String NGraph
  | [], g => Except.ok g
  | r :: rs, g =>
    if hasNode g r.start && hasNode g r.end_ then
      match dictGet r.properties "type" with
      | Except.ok nm => addRels rs (addEdge g r.start r.end_ r.type nm)
      | Except.error e => Except.error e
    else addRels rs g

/-- `Clustering.create_graph` (`src/clustering.py` lines 28-45): add
all nodes, then the guarded edges; the `Except` layer carries the
KeyError Python would raise. -/
def create_graph (d : GraphData) : Except String NGraph :=
  addRels d.relationships (buildNodes d.nodes)

/- ## Community partitioning (Clustering.cluster_graph, src/clustering.py 47-54) -/

/-- Index of a string in a list (first occurrence). -/
def idxOf (x : String) : List String → Nat
  | [] => 0
  | y :: ys => if y == x then 0 else idxOf x ys + 1

/-- Index of a natural number in a list (first occurrence). -/
def idxOfN (x : Nat) : List Nat → Nat
  | [] => 0
  | y :: ys => if y == x then 0 else idxOfN x ys + 1

/-- Total weight of a weighted edge list. -/
def totalWeight (wedges : List (Nat × Nat × Nat)) : Nat :=
  wedges.foldl (fun s e => s + e.2.2) 0

/-- Weighted degree of node `i` (a self-loop counts twice). -/
def degOf (wedges : List (Nat × Nat × Nat)) (i : Nat) : Nat :=
  wedges.foldl
    (fun d e =>
      if e.1 = i ∧ e.2.1 = i then d + 2 * e.2.2
      else if e.1 = i ∨ e.2.1 = i then d + e.2.2
      else d) 0

/-- Total edge weight between node `i` and the nodes of community `c`
other than `i` itself (the `k_{i,C}` of the modularity-gain formula). -/
def linksToComm (wedges : List (Nat × Nat × Nat)) (asg : List Nat) (i c : Nat) : Nat :=
  wedges.foldl
    (fun s e =>
      if e.1 = i ∧ e.2.1 ≠ i ∧ asg.getD e.2.1 0 = c then s + e.2.2
      else if e.2.1 = i ∧ e.1 ≠ i ∧ asg.getD e.1 0 = c then s + e.2.2
      else s) 0

/-- Summed degree of community `c`, with node `excl` removed (the
`Σtot` of the gain formula, after lifting the moving node out). -/
def commDeg (wedges : List (Nat × Nat × Nat)) (asg : List Nat) (n c excl : Nat) : Nat :=
  (List.range n).foldl
    (fun s j => if j ≠ excl ∧ asg.getD j 0 = c then s + degOf wedges j else s) 0

/-- Modelled from the spec (§4.5): the local-moving step for one node.
Gains are compared through the unnormalized quantity
`2m * k_{i,C} - deg(i) * Σtot(C)` (the spec allows dropping the
normalization constant); candidate communities are the communities of
neighbors, scanned in ascending id order so that ties prefer the
lowest community id; the node moves only on a strictly positive gain
over staying in its own community. -/
def bestMove (wedges : List (Nat × Nat × Nat)) (n : Nat) (m2 : Int)
    (asg : List Nat) (i : Nat) : Nat :=
  let a := asg.getD i 0
  let di : Int := degOf wedges i
  let base : Int := m2 * (linksToComm wedges asg i a : Int) - di * (commDeg wedges asg n a i : Int)
  let cand := (List.range n).foldl
    (fun best c =>
      if c ≠ a ∧ 0 < linksToComm wedges asg i c then
        let gc : Int := m2 * (linksToComm wedges asg i c : Int) - di * (commDeg wedges asg n c i : Int)
        match best with
        | none => if base < gc then some (c, gc) else none
        | some (bc, bg) => if bg < gc then some (c, gc) else some (bc, bg)
      else best) none
  match cand with
  | some (c, _) => c
  | none => a

/-- One full sweep of the local-moving phase, visiting the nodes in
the stable ascending order `0, 1, ..., n-1`. -/
def sweep (wedges : List (Nat × Nat × Nat)) (n : Nat) (m2 : Int)
    (asg : List Nat) : List Nat :=
  (List.range n).foldl (fun a i => a.set i (bestMove wedges n m2 a i)) asg

/-- Modelled from the spec (§4.5): repeat full sweeps until a sweep
moves no node. The spec's loop terminates because each accepted move
strictly increases modularity; here the bound is made explicit as
fuel, which the theorems do not depend on. -/
def localMove : Nat → List (Nat × Nat × Nat) → Nat → Int → List Nat → List Nat
  | 0, _, _, _, asg => asg
  | fuel + 1, wedges, n, m2, asg =>
    let asg2 := sweep wedges n m2 asg
    if asg2 = asg then asg else localMove fuel wedges n m2 asg2

/-- Total weight between communities `c1` and `c2` (each edge counted
once), under assignment `asg`. -/
def weightBetween (wedges : List (Nat × Nat × Nat)) (asg : List Nat) (c1 c2 : Nat) : Nat :=
  wedges.foldl
    (fun s e =>
      let cu := asg.getD e.1 0
      let cv := asg.getD e.2.1 0
      if (cu = c1 ∧ cv = c2) ∨ (cu = c2 ∧ cv = c1) then s + e.2.2 else s) 0

/-- Modelled from the spec (§4.5): the aggregation phase's coarse
graph over `k` super-nodes — inter-community weights are summed, and
each community gets a self-loop of twice its intra-community weight. -/
def aggEdges (wedges : List (Nat × Nat × Nat)) (asg : List Nat) (k : Nat) :
    List (Nat × Nat × Nat) :=
  (List.range k).flatMap fun c1 =>
    (List.range k).filterMap fun c2 =>
      if c1 < c2 then
        let w := weightBetween wedges asg c1 c2
        if w ≠ 0 then some (c1, c2, w) else none
      else if c1 = c2 then
        let w := 2 * weightBetween wedges asg c1 c1
        if w ≠ 0 then some (c1, c1, w) else none
      else none

/-- Modelled from the spec (§4.5): the Louvain level loop — run local
moving from singleton communities, stop when nothing moved, otherwise
relabel communities densely (ascending order), re-map the original
nodes through `glob`, aggregate, and recurse on the coarser graph. -/
def louvainLoop : Nat → List (Nat × Nat × Nat) → Nat → List Nat → List Nat
  | 0, _, _, glob => glob
  | lv + 1, wedges, n, glob =>
    let m2 : Int := 2 * (totalWeight wedges : Int)
    let asg := localMove ((n + 1) * (n + 1)) wedges n m2 (List.range n)
    if asg = List.range n then glob
    else
      let comms := (List.range n).filter fun c => asg.contains c
      let asg2 := asg.map fun c => idxOfN c comms
      let glob2 := glob.map fun c => asg2.getD c 0
      louvainLoop lv (aggEdges wedges asg2 comms.length) comms.length glob2

/-- `Clustering.cluster_graph` (`src/clustering.py` lines 47-54). The
source line delegates to `community_louvain.best_partition`, an
external library outside `src/`; the partition algorithm itself is
modelled from the spec (§4.5, Louvain-style modularity optimization
with the stable node order fixed by the graph's node list). The
result maps every node id to a non-negative community id. -/
def cluster_graph (g : NGraph) : List (String × Nat) :=
  let ids := g.nodes.map Prod.fst
  let n := ids.length
  let wedges := g.edges.map fun e => (idxOf e.1 ids, idxOf e.2.1 ids, 1)
  ids.zip (louvainLoop (n + 1) wedges n (List.range n))

/- ## Helper lemmas -/

theorem extractStep_triplet_relation (s : DecState) :
    (extractStep s "<triplet>").relation = "" := by
  simp only [extractStep]
  repeat' split <;> simp_all

theorem extractStep_triplet_noemit (u : DecState) (h : u.relation = "") :
    (extractStep u "<triplet>").triplets = u.triplets := by
  simp [extractStep, h]

theorem pfx_iff (a : List Char) : ∀ (b : List Char), pfx a b = true ↔ ∃ t, a ++ t = b := by
  induction a with
  | nil => intro b; simp [pfx]
  | cons c as ih =>
    intro b
    cases b with
    | nil => simp [pfx]
    | cons d bs =>
      simp only [pfx, Bool.and_eq_true, beq_iff_eq, List.cons_append, ih bs]
      constructor
      · rintro ⟨rfl, t, rfl⟩
        exact ⟨t, rfl⟩
      · rintro ⟨t, h⟩
        injection h with h1 h2
        exact ⟨h1, t, h2⟩

theorem subIn_iff (n : List Char) :
    ∀ (hay : List Char), subIn n hay = true ↔ ∃ pre post, pre ++ n ++ post = hay := by
  intro hay
  induction hay with
  | nil =>
    simp [subIn, pfx_iff, List.append_eq_nil]
  | cons c rest ih =>
    simp only [subIn, Bool.or_eq_true, pfx_iff, ih]
    constructor
    · rintro (⟨t, h⟩ | ⟨pre, post, h⟩)
      · exact ⟨[], t, by simpa using h⟩
      · exact ⟨c :: pre, post, by simp [h]⟩
    · rintro ⟨pre, post, h⟩
      cases pre with
      | nil => exact Or.inl ⟨post, by simpa using h⟩
      | cons p ps =>
        simp only [List.cons_append] at h
        injection h with h1 h2
        subst h1
        exact Or.inr ⟨ps, post, h2⟩

theorem isInfixIffSub (n hay : List Char) :
    n <:+: hay ↔ ∃ pre post, pre ++ n ++ post = hay :=
  Iff.rfl

theorem merge_entity_mem (g : GraphStore) (name : String) (h : name ∈ g.entities) :
    merge_entity g name = g := by
  simp [merge_entity, h]

theorem merge_edge_mem (g : GraphStore) (src tgt ty : String)
    (h : (src, tgt, ty) ∈ g.edges) : merge_edge g src tgt ty = g := by
  simp [merge_edge, h]

theorem merge_entity_notmem (g : GraphStore) (name : String) (h : name ∉ g.entities) :
    merge_entity g name = { g with entities := g.entities ++ [name] } := if_neg h

theorem merge_edge_notmem (g : GraphStore) (src tgt ty : String)
    (h : (src, tgt, ty) ∉ g.edges) :
    merge_edge g src tgt ty = { g with edges := g.edges ++ [(src, tgt, ty)] } := if_neg h

theorem mem_entities_merge_entity (g : GraphStore) (x name : String) (h : x ∈ g.entities) :
    x ∈ (merge_entity g name).entities := by
  unfold merge_entity
  split
  · exact h
  · exact List.mem_append_left _ h

theorem self_mem_merge_entity (g : GraphStore) (name : String) :
    name ∈ (merge_entity g name).entities := by
  unfold merge_entity
  split
  · assumption
  · exact List.mem_append_right _ (List.mem_singleton.2 rfl)

theorem entities_merge_edge (g : GraphStore) (src tgt ty : String) :
    (merge_edge g src tgt ty).entities = g.entities := by
  unfold merge_edge
  split <;> rfl

theorem self_mem_merge_edge (g : GraphStore) (src tgt ty : String) :
    (src, tgt, ty) ∈ (merge_edge g src tgt ty).edges := by
  unfold merge_edge
  split
  · assumption
  · exact List.mem_append_right _ (List.mem_singleton.2 rfl)

theorem upsert_idem (g : GraphStore) (t : Triplet) :
    upsert (upsert g t) t = upsert g t := by
  unfold upsert
  set g1 := merge_edge (merge_entity (merge_entity g t.head) t.tail) t.head t.tail t.type
    with hg1
  have hh : t.head ∈ g1.entities := by
    rw [hg1, entities_merge_edge]
    exact mem_entities_merge_entity _ _ _ (self_mem_merge_entity _ _)
  have ht : t.tail ∈ g1.entities := by
    rw [hg1, entities_merge_edge]
    exact self_mem_merge_entity _ _
  rw [merge_entity_mem _ _ hh, merge_entity_mem _ _ ht,
    merge_edge_mem _ _ _ _ (by rw [hg1]; exact self_mem_merge_edge _ _ _ _)]

theorem upsertN_fixed (n : Nat) (g : GraphStore) (t : Triplet) (h : upsert g t = g) :
    upsertN n g t = g := by
  induction n with
  | zero => rfl
  | succ k ih => simp [upsertN, h, ih]

theorem mapE_error_of_mem (gen : List Char → Except String (List String)) :
    ∀ (l : List (List Char)), (∃ c ∈ l, ∃ e, gen c = Except.error e) →
      ∃ e2, mapE gen l = Except.error e2 := by
  intro l
  induction l with
  | nil => rintro ⟨c, hc, _⟩; cases hc
  | cons a as ih =>
    rintro ⟨c, hc, e, hge⟩
    rcases List.mem_cons.1 hc with rfl | hmem
    · exact ⟨e, by simp [mapE, hge]⟩
    · obtain ⟨e2, h2⟩ := ih ⟨c, hmem, e, hge⟩
      cases hga : gen a with
      | error eh => exact ⟨eh, by simp [mapE, hga]⟩
      | ok r => exact ⟨e2, by simp [mapE, hga, h2]⟩

theorem addEdge_nodes (g : NGraph) (u v ty nm : String) :
    (addEdge g u v ty nm).nodes = g.nodes := by
  unfold addEdge
  split <;> rfl

theorem hasNode_addEdge (g : NGraph) (u v ty nm x : String) :
    hasNode (addEdge g u v ty nm) x = hasNode g x := by
  simp [hasNode, addEdge_nodes]

theorem addRels_filter : ∀ (rs : List RelJson) (g : NGraph),
    addRels rs g =
      addRels (rs.filter fun r => hasNode g r.start && hasNode g r.end_) g := by
  intro rs
  induction rs with
  | nil => intro g; rfl
  | cons r rs ih =>
    intro g
    by_cases hv : (hasNode g r.start && hasNode g r.end_) = true
    · rw [List.filter_cons, if_pos hv]
      simp only [addRels]
      rw [if_pos hv, if_pos hv]
      cases hd : dictGet r.properties "type" with
      | error e => rfl
      | ok nm =>
        show addRels rs (addEdge g r.start r.end_ r.type nm) =
          addRels (rs.filter fun rr => hasNode g rr.start && hasNode g rr.end_)
            (addEdge g r.start r.end_ r.type nm)
        rw [ih (addEdge g r.start r.end_ r.type nm)]
        congr 1
        apply List.filter_congr
        intro x _
        simp [hasNode_addEdge]
    · rw [List.filter_cons, if_neg hv]
      simp only [addRels]
      rw [if_neg hv]
      exact ih g

theorem addRels_keyerror : ∀ (rs : List RelJson) (g : NGraph),
    (∃ r ∈ rs, (hasNode g r.start && hasNode g r.end_) = true ∧
      r.properties.find? (fun p => p.1 == "type") = none) →
    addRels rs g = Except.error "type" := by
  intro rs
  induction rs with
  | nil => rintro g ⟨r, hr, _⟩; cases hr
  | cons a as ih =>
    rintro g ⟨r, hr, hv, hk⟩
    rcases List.mem_cons.1 hr with rfl | hmem
    · have hd : dictGet r.properties "type" = Except.error "type" := by
        simp [dictGet, hk]
      simp only [addRels]
      rw [if_pos hv, hd]
    · by_cases hva : (hasNode g a.start && hasNode g a.end_) = true
      · cases hf : a.properties.find? (fun p => p.1 == "type") with
        | some p =>
          have hd : dictGet a.properties "type" = Except.ok p.2 := by
            simp [dictGet, hf]
          simp only [addRels]
          rw [if_pos hva, hd]
          exact ih _ ⟨r, hmem, by rw [hasNode_addEdge, hasNode_addEdge]; exact hv, hk⟩
        | none =>
          have hd : dictGet a.properties "type" = Except.error "type" := by
            simp [dictGet, hf]
          simp only [addRels]
          rw [if_pos hva, hd]
      · simp only [addRels]
        rw [if_neg hva]
        exact ih _ ⟨r, hmem, hv, hk⟩

theorem foldl_set_length (f : List Nat → Nat → Nat) :
    ∀ (l : List Nat) (a : List Nat),
      (l.foldl (fun acc i => acc.set i (f acc i)) a).length = a.length := by
  intro l
  induction l with
  | nil => intro a; rfl
  | cons x xs ih => intro a; rw [List.foldl_cons, ih, List.length_set]

theorem sweep_length (w : List (Nat × Nat × Nat)) (n : Nat) (m2 : Int) (asg : List Nat) :
    (sweep w n m2 asg).length = asg.length :=
  foldl_set_length (fun acc i => bestMove w n m2 acc i) (List.range n) asg

theorem localMove_length :
    ∀ (fuel : Nat) (w : List (Nat × Nat × Nat)) (n : Nat) (m2 : Int) (asg : List Nat),
      (localMove fuel w n m2 asg).length = asg.length := by
  intro fuel
  induction fuel with
  | zero => intros; rfl
  | succ f ih =>
    intro w n m2 asg
    simp only [localMove]
    split
    · rfl
    · rw [ih, sweep_length]

theorem louvainLoop_length :
    ∀ (lv : Nat) (w : List (Nat × Nat × Nat)) (n : Nat) (glob : List Nat),
      (louvainLoop lv w n glob).length = glob.length := by
  intro lv
  induction lv with
  | zero => intros; rfl
  | succ l ih =>
    intro w n glob
    simp only [louvainLoop]
    split
    · rfl
    · rw [ih, List.length_map]

theorem addNode_nodup (g : NGraph) (nid : String) (a : NAttrs)
    (h : (g.nodes.map Prod.fst).Nodup) :
    ((addNode g nid a).nodes.map Prod.fst).Nodup := by
  unfold addNode
  split
  · show ((g.nodes.map fun p => if p.1 == nid then (p.1, a) else p).map Prod.fst).Nodup
    have heq : ((g.nodes.map fun p => if p.1 == nid then (p.1, a) else p).map Prod.fst)
        = g.nodes.map Prod.fst := by
      rw [List.map_map]
      apply List.map_congr_left
      intro p _
      by_cases hp : p.1 = nid <;> simp [Function.comp, hp]
    rw [heq]
    exact h
  · rename_i hne
    have hnotmem : nid ∉ g.nodes.map Prod.fst := by
      intro hmem
      apply hne
      rw [List.any_eq_true]
      obtain ⟨p, hp, hfst⟩ := List.mem_map.1 hmem
      exact ⟨p, hp, by simp [hfst]⟩
    simp only [List.map_append, List.map_cons, List.map_nil]
    rw [List.nodup_append]
    exact ⟨h, List.nodup_singleton _, by
      intro x hx hx2
      rw [List.mem_singleton] at hx2
      subst hx2
      exact hnotmem hx⟩

theorem buildNodes_go_nodup : ∀ (ns : List (String × NAttrs)) (g : NGraph),
    (g.nodes.map Prod.fst).Nodup →
    ((ns.foldl (fun g nd => addNode g nd.1 nd.2) g).nodes.map Prod.fst).Nodup := by
  intro ns
  induction ns with
  | nil => exact fun g h => h
  | cons x xs ih => exact fun g h => ih _ (addNode_nodup _ _ _ h)

/- ## Claim theorems -/

/-- **C1**: for the input sequence
`"<triplet> Paris <subj> France <obj> capital_of"` the triplet decoder
returns exactly `[{head: "Paris", type: "capital_of", tail: "France"}]`:
the text after `<subj>` lands in the tail field and the text after
`<obj>` lands in the type field. -/
theorem c1_decoder_binds_tail_after_subj :
    extract_triplets "<triplet> Paris <subj> France <obj> capital_of" =
      [⟨"Paris", "capital_of", "France"⟩] := by decide

/-- **C2**: upserting the same triple `n ≥ 1` times into an empty
store leaves exactly one entity named `head`, one named `tail`, and
one edge keyed `(head, tail, type)`, and a re-upsert is a no-op on any
store. -/
theorem c2_upsert_idempotent (t : Triplet) (n : Nat) (h : 1 ≤ n) :
    (upsertN n emptyStore t).entities.count t.head = 1 ∧
    (upsertN n emptyStore t).entities.count t.tail = 1 ∧
    (upsertN n emptyStore t).edges.count (t.head, t.tail, t.type) = 1 ∧
    ∀ g : GraphStore, upsert (upsert g t) t = upsert g t := by
  obtain ⟨k, rfl⟩ : ∃ k, n = k + 1 := ⟨n - 1, by omega⟩
  have hstep : upsertN (k + 1) emptyStore t = upsert emptyStore t := by
    show upsertN k (upsert emptyStore t) t = upsert emptyStore t
    exact upsertN_fixed _ _ _ (upsert_idem _ _)
  rw [hstep]
  have e1 : merge_entity emptyStore t.head = ⟨[t.head], []⟩ :=
    merge_entity_notmem _ _ (List.not_mem_nil _)
  by_cases hq : t.tail = t.head
  · have e2 : merge_entity (⟨[t.head], []⟩ : GraphStore) t.tail = ⟨[t.head], []⟩ :=
      merge_entity_mem _ _ (by rw [hq]; exact List.mem_singleton.2 rfl)
    have hup : upsert emptyStore t = ⟨[t.head], [(t.head, t.tail, t.type)]⟩ := by
      show merge_edge (merge_entity (merge_entity emptyStore t.head) t.tail)
          t.head t.tail t.type = _
      rw [e1, e2]
      exact merge_edge_notmem _ _ _ _ (List.not_mem_nil _)
    rw [hup]
    refine ⟨?_, ?_, ?_, fun g => upsert_idem g t⟩
    · simp [List.count_cons]
    · rw [hq]; simp [List.count_cons]
    · simp [List.count_cons]
  · have e2 : merge_entity (⟨[t.head], []⟩ : GraphStore) t.tail = ⟨[t.head, t.tail], []⟩ :=
      merge_entity_notmem _ _ (by simp [hq])
    have hup : upsert emptyStore t = ⟨[t.head, t.tail], [(t.head, t.tail, t.type)]⟩ := by
      show merge_edge (merge_entity (merge_entity emptyStore t.head) t.tail)
          t.head t.tail t.type = _
      rw [e1, e2]
      exact merge_edge_notmem _ _ _ _ (List.not_mem_nil _)
    have hq2 : ¬(t.head = t.tail) := fun hh => hq hh.symm
    rw [hup]
    refine ⟨?_, ?_, ?_, fun g => upsert_idem g t⟩
    · simp [List.count_cons, hq2]
    · simp [List.count_cons, hq]
    · simp [List.count_cons]

/-- Witness for C2 at the triple ("a", "r", "b") and `n = 2`. -/
theorem c2_upsert_idempotent_witness :
    (upsertN 2 emptyStore ⟨"a", "r", "b"⟩).entities.count "a" = 1 ∧
    (upsertN 2 emptyStore ⟨"a", "r", "b"⟩).entities.count "b" = 1 ∧
    (upsertN 2 emptyStore ⟨"a", "r", "b"⟩).edges.count ("a", "b", "r") = 1 ∧
    ∀ g : GraphStore,
      upsert (upsert g ⟨"a", "r", "b"⟩) ⟨"a", "r", "b"⟩ = upsert g ⟨"a", "r", "b"⟩ :=
  c2_upsert_idempotent ⟨"a", "r", "b"⟩ 2 (by decide)

/-- **C3**: every token appends at most one triple; the triple-open
marker emits the pending triple exactly when the relation accumulator
is non-empty (and empties it), so a second consecutive `<triplet>`
marker emits nothing. -/
theorem c3_single_emission_per_marker :
    ∀ (s : DecState) (token : String),
      ((extractStep s token).triplets = s.triplets ∨
        ∃ tr, (extractStep s token).triplets = s.triplets ++ [tr]) ∧
      ((extractStep s "<triplet>").triplets =
        s.triplets ++ (if s.relation == "" then []
          else [⟨pyStrip s.subject, pyStrip s.relation, pyStrip s.object_⟩])) ∧
      (extractStep (extractStep s "<triplet>") "<triplet>").triplets =
        (extractStep s "<triplet>").triplets := by
  intro s token
  refine ⟨?_, ?_, extractStep_triplet_noemit _ (extractStep_triplet_relation s)⟩
  · simp only [extractStep]
    repeat' split
    all_goals first
    | exact Or.inl rfl
    | exact Or.inr ⟨_, rfl⟩
  · by_cases hrel : s.relation = "" <;> simp [extractStep, hrel]

/-- **C4**: the partition depends only on the graph data (node list in
its stable order, and edges); two runs on the identical graph yield
the identical mapping — the modelled partitioner has no hidden
randomness or unordered iteration. -/
theorem c4_partition_deterministic (g1 g2 : NGraph)
    (h1 : g1.nodes = g2.nodes) (h2 : g1.edges = g2.edges) :
    cluster_graph g1 = cluster_graph g2 := by
  cases g1
  cases g2
  cases h1
  cases h2
  rfl

/-- Witness for C4 on a concrete two-node graph. -/
theorem c4_partition_deterministic_witness :
    cluster_graph ⟨[("a", ⟨[], []⟩), ("b", ⟨[], []⟩)], [("a", "b", "t", "")]⟩ =
      cluster_graph ⟨[("a", ⟨[], []⟩), ("b", ⟨[], []⟩)], [("a", "b", "t", "")]⟩ :=
  c4_partition_deterministic _ _ rfl rfl

/-- **C5**: the partitioner is total — for every graph (empty and
disconnected ones included) it returns, without failing, a mapping
whose keys are exactly the graph's nodes in order (hence each node
exactly once, since built graphs have no duplicate node ids), with
community ids drawn from `Nat` (non-negative). -/
theorem c5_partition_totality :
    (∀ g : NGraph, (cluster_graph g).map Prod.fst = g.nodes.map Prod.fst) ∧
    (∀ ns : List (String × NAttrs), ((buildNodes ns).nodes.map Prod.fst).Nodup) ∧
    cluster_graph ⟨[], []⟩ = [] := by
  refine ⟨?_, ?_, by decide⟩
  · intro g
    unfold cluster_graph
    dsimp only
    apply List.map_fst_zip
    rw [louvainLoop_length, List.length_range]
  · intro ns
    exact buildNodes_go_nodup ns ⟨[], []⟩ (by simp)

/-- **C6**: if the generator/decoder fails on any chunk, the whole
extraction call returns the empty list — not a partial list and not
an exception. -/
theorem c6_failure_yields_empty_list
    (gen : List Char → Except String (List String)) (keywords : List String)
    (text : List Char)
    (h : ∃ c ∈ chunks1000 text, ∃ e, gen c = Except.error e) :
    extract_causal_relationships gen keywords text = [] := by
  obtain ⟨e2, h2⟩ := mapE_error_of_mem gen (chunks1000 text) h
  simp [extract_causal_relationships, h2]

/-- Witness for C6: a generator that always fails yields `[]`. -/
theorem c6_failure_yields_empty_list_witness :
    extract_causal_relationships (fun _ => Except.error "boom") [] "x".data = [] :=
  c6_failure_yields_empty_list _ _ _ ⟨"x".data, by decide, "boom", rfl⟩

/-- **C7**: the causal filter accepts a triple iff the lower-cased
type contains some vocabulary phrase as a substring; "Has effect on"
is accepted against the vocabulary {"has effect"}, "located in" is
rejected against it. -/
theorem c7_causal_filter :
    (∀ (kws : List String) (t : Triplet),
      isCausal kws t = true ↔ ∃ k ∈ kws, k.data <:+: (pyLower t.type).data) ∧
    isCausal ["has effect"] ⟨"x", "Has effect on", "y"⟩ = true ∧
    isCausal ["has effect"] ⟨"x", "located in", "y"⟩ = false := by
  refine ⟨?_, by decide, by decide⟩
  intro kws t
  rw [isCausal, List.any_eq_true]
  constructor
  · rintro ⟨k, hk, hs⟩
    exact ⟨k, hk, (isInfixIffSub _ _).2 ((subIn_iff _ _).1 hs)⟩
  · rintro ⟨k, hk, hs⟩
    exact ⟨k, hk, (subIn_iff _ _).2 ((isInfixIffSub _ _).1 hs)⟩

/-- **C8**: relationships whose start or end id is not a declared node
contribute nothing at all: building the graph gives the very same
result (same edges, same edge count, no exception) as building it with
those dangling relationships removed. -/
theorem c8_dangling_edges_skipped (d : GraphData) :
    create_graph d =
      create_graph
        { d with relationships := (d.relationships.filter
            (fun r => hasNode (buildNodes d.nodes) r.start &&
              hasNode (buildNodes d.nodes) r.end_)) } :=
  addRels_filter d.relationships (buildNodes d.nodes)

/-- Witness for C8 on concrete data with one dangling relationship. -/
theorem c8_dangling_edges_skipped_witness :
    create_graph ⟨[("a", ⟨[], []⟩)], [⟨"a", "zz", "REL", [("type", "x")]⟩]⟩ =
      create_graph
        { nodes := [("a", ⟨[], []⟩)],
          relationships := ([RelJson.mk "a" "zz" "REL" [("type", "x")]].filter
            (fun r => hasNode (buildNodes [("a", ⟨[], []⟩)]) r.start &&
              hasNode (buildNodes [("a", ⟨[], []⟩)]) r.end_)) } :=
  c8_dangling_edges_skipped _

/-- **C9**: the subject-boundary marker `<subj>` emits without
resetting the relation accumulator, so the decoder can emit a second
triple reusing the same head and relation with a different tail, as on
the token sequence `"<triplet> a <subj> b <obj> r <subj> c <triplet>"`. -/
theorem c9_subj_marker_keeps_relation :
    (∀ s : DecState, (extractStep s "<subj>").relation = s.relation) ∧
    extract_triplets "<triplet> a <subj> b <obj> r <subj> c <triplet>" =
      [⟨"a", "r", "b"⟩, ⟨"a", "r", "c"⟩] := by
  constructor
  · intro s
    simp only [extractStep]
    repeat' split <;> simp_all
  · decide

/-- **C10**: when a relationship has both endpoints declared as nodes
but its properties map lacks the "type" key, building the graph raises
the KeyError (modelled as `Except.error "type"`) instead of skipping
or defaulting. -/
theorem c10_missing_type_key_raises (d : GraphData)
    (h : ∃ r ∈ d.relationships,
      (hasNode (buildNodes d.nodes) r.start && hasNode (buildNodes d.nodes) r.end_) = true ∧
      r.properties.find? (fun p => p.1 == "type") = none) :
    create_graph d = Except.error "type" :=
  addRels_keyerror d.relationships (buildNodes d.nodes) h

/-- Witness for C10: both endpoints exist, properties map empty. -/
theorem c10_missing_type_key_raises_witness :
    create_graph ⟨[("a", ⟨[], []⟩), ("b", ⟨[], []⟩)], [⟨"a", "b", "REL", []⟩]⟩ =
      Except.error "type" :=
  c10_missing_type_key_raises _ ⟨⟨"a", "b", "REL", []⟩, by decide, by decide, rfl⟩

end FA
